import Mathlib

/-!
Verification of the streaming-response core of the Quack repository
(src/groq.rs, src/main.rs, src/tui.rs) against its specification.

The embedding is shallow: bytes are `Nat` (only ever compared with the
newline byte 10), Rust `String`s are Lean `String`s (operations are
re-implemented over `List Char`, which coincides with the Rust byte-index
operations on the ASCII inputs the claims are about), JSON values are an
inductive `Json`, and the two external library calls the core makes
(`serde_json::from_str` and the system clipboard) are passed in as
function parameters.
-/

set_option autoImplicit false

namespace Quack

/-! ### Frame reassembler (src/groq.rs)

`find_double_newline` models the Rust function of the same name
(`buf.windows(2).position(|w| w == b"\n\n")`).  The drain loop
`while let Some(pos) = find_double_newline(&buf) { buf.drain(..pos + 2) }`
is modelled by `drainFrames`, written with an explicit fuel argument
(`buf.length` always suffices, since every drained frame removes at least
two bytes); this keeps the definition structurally recursive and
executable by the kernel. -/

/-- Position of the first adjacent pair of newline bytes, as in
`buf.windows(2).position(|w| w == b"\n\n")`. -/
def find_double_newline : List Nat → Option Nat
  | a :: b :: rest =>
      if a = 10 ∧ b = 10 then some 0
      else (find_double_newline (b :: rest)).map (· + 1)
  | _ => none

/-- One pass of the Rust drain loop, with fuel. On each step, the bytes up
to and including the first double newline are drained as one frame; the
remainder stays in the buffer. -/
def drainFramesF : Nat → List Nat → List (List Nat) × List Nat
  | 0, buf => ([], buf)
  | fuel + 1, buf =>
      match find_double_newline buf with
      | none => ([], buf)
      | some pos =>
          let frame := buf.take (pos + 2)
          let rest := buf.drop (pos + 2)
          let r := drainFramesF fuel rest
          (frame :: r.1, r.2)

/-- The drain loop itself: repeatedly drain everything up to and including
the first double-newline delimiter as one frame. -/
def drainFrames (buf : List Nat) : List (List Nat) × List Nat :=
  drainFramesF buf.length buf

/-- `feed`: append a raw chunk to the reassembly buffer and drain all
complete frames (the body of the `Ok(bytes)` arm in `ask_the_duck`). -/
def feed (buf chunk : List Nat) : List (List Nat) × List Nat :=
  drainFrames (buf ++ chunk)

/-- Feed a sequence of chunks one at a time, collecting all frames in
order and the final residual buffer. -/
def feedAll (buf : List Nat) : List (List Nat) → List (List Nat) × List Nat
  | [] => ([], buf)
  | c :: cs =>
      let r := feed buf c
      let r' := feedAll r.2 cs
      (r.1 ++ r'.1, r'.2)

/-! ### Modelled Rust string primitives

Rust strings are modelled over `List Char`; indices are character
indices, which agree with Rust's byte indices on the ASCII text all the
concrete inputs use. -/

/-- Split a character list at every newline (helper for `str::lines`). -/
def splitNl : List Char → List (List Char)
  | [] => [[]]
  | c :: rest =>
      if c = '\n' then [] :: splitNl rest
      else
        match splitNl rest with
        | p :: ps => (c :: p) :: ps
        | [] => [[c]]

/-- Strip one trailing carriage return, as `str::lines` does per line. -/
def stripCr (l : List Char) : List Char :=
  if l.getLast? = some '\r' then l.dropLast else l

/-- Rust `str::lines`: split on newline, drop the final empty piece (so a
trailing newline adds no extra line), strip one trailing `\r` per line. -/
def rustLines (cs : List Char) : List (List Char) :=
  let ps := splitNl cs
  let ps := if ps.getLast? = some [] then ps.dropLast else ps
  ps.map stripCr

def wsChar (c : Char) : Bool := c.isWhitespace

/-- Rust `str::trim` (ASCII whitespace). -/
def trimChars (l : List Char) : List Char :=
  ((l.dropWhile wsChar).reverse.dropWhile wsChar).reverse

/-- Rust `str::trim_end`. -/
def rtrimChars (l : List Char) : List Char :=
  (l.reverse.dropWhile wsChar).reverse

def toLowerL (l : List Char) : List Char := l.map Char.toLower

def toUpperL (l : List Char) : List Char := l.map Char.toUpper

/-- First index at which `pat` occurs in `l` (Rust `str::find`). -/
def findSub : List Char → List Char → Option Nat
  | [], pat => if pat = [] then some 0 else none
  | c :: rest, pat =>
      if pat.isPrefixOf (c :: rest) then some 0
      else (findSub rest pat).map (· + 1)

/-- Rust `str::contains` for a substring pattern. -/
def containsSub (l pat : List Char) : Bool := (findSub l pat).isSome

/-- Rust `str::split_whitespace`: maximal non-whitespace runs, in order. -/
def splitWsGo (cur : List Char) : List Char → List (List Char)
  | [] => if cur = [] then [] else [cur.reverse]
  | c :: rest =>
      if wsChar c then
        if cur = [] then splitWsGo [] rest
        else cur.reverse :: splitWsGo [] rest
      else splitWsGo (c :: cur) rest

def splitWs (l : List Char) : List (List Char) := splitWsGo [] l

/-! ### UTF-8 decoding (`String::from_utf8`)

A faithful RFC 3629 decoder: rejects truncated sequences, stray or
out-of-range continuation bytes, overlong encodings, surrogates and code
points above `0x10FFFF`, exactly as `String::from_utf8` does. -/

def utf8Cont (b : Nat) : Bool := 0x80 ≤ b && b ≤ 0xBF

def from_utf8 : List Nat → Option (List Char)
  | [] => some []
  | b :: rest =>
      if b < 0x80 then (from_utf8 rest).map (Char.ofNat b :: ·)
      else if 0xC2 ≤ b && b ≤ 0xDF then
        match rest with
        | c1 :: rest2 =>
            if utf8Cont c1 then
              (from_utf8 rest2).map (Char.ofNat ((b - 0xC0) * 64 + (c1 - 0x80)) :: ·)
            else none
        | [] => none
      else if 0xE0 ≤ b && b ≤ 0xEF then
        match rest with
        | c1 :: c2 :: rest3 =>
            let lo1 := if b = 0xE0 then 0xA0 else 0x80
            let hi1 := if b = 0xED then 0x9F else 0xBF
            if lo1 ≤ c1 && c1 ≤ hi1 && utf8Cont c2 then
              (from_utf8 rest3).map
                (Char.ofNat ((b - 0xE0) * 4096 + (c1 - 0x80) * 64 + (c2 - 0x80)) :: ·)
            else none
        | _ => none
      else if 0xF0 ≤ b && b ≤ 0xF4 then
        match rest with
        | c1 :: c2 :: c3 :: rest4 =>
            let lo1 := if b = 0xF0 then 0x90 else 0x80
            let hi1 := if b = 0xF4 then 0x8F else 0xBF
            if lo1 ≤ c1 && c1 ≤ hi1 && utf8Cont c2 && utf8Cont c3 then
              (from_utf8 rest4).map
                (Char.ofNat
                  ((b - 0xF0) * 262144 + (c1 - 0x80) * 4096 + (c2 - 0x80) * 64 + (c3 - 0x80)) :: ·)
            else none
        | _ => none
      else none

/-! ### JSON values and the delta extractor (src/groq.rs)

`serde_json::Value` is modelled by `Json`; objects are ordered field
lists with first-match lookup.  `serde_json::from_str` is an external
library call and is passed into the stream model as a
`parse : String → Option Json` parameter. -/

inductive Json where
  | null
  | bool (b : Bool)
  | num (n : Int)
  | str (s : String)
  | arr (elems : List Json)
  | obj (fields : List (String × Json))

def lookupField : List (String × Json) → String → Option Json
  | [], _ => none
  | (k, v) :: rest, key => if k = key then some v else lookupField rest key

/-- `Value::get(&str)`: object field lookup. -/
def jget : Json → String → Option Json
  | .obj fields, key => lookupField fields key
  | _, _ => none

/-- `Value::get(usize)`: array indexing. -/
def jidx : Json → Nat → Option Json
  | .arr elems, i => elems[i]?
  | _, _ => none

/-- `Value::as_str`. -/
def as_str : Json → Option String
  | .str s => some s
  | _ => none

def digitsToNatAux : Nat → List Char → Option Nat
  | acc, [] => some acc
  | acc, c :: rest =>
      if c.isDigit then digitsToNatAux (acc * 10 + (c.toNat - 48)) rest else none

/-- Array-index parsing of a JSON-pointer token (digits only, no leading
zero except for "0" itself), as `serde_json`'s pointer does. -/
def parse_array_index (tok : String) : Option Nat :=
  match tok.data with
  | [] => none
  | c :: rest => if c = '0' ∧ rest ≠ [] then none else digitsToNatAux 0 (c :: rest)

/-- One step of `Value::pointer`: key lookup on objects, parsed-index
lookup on arrays. -/
def pointer_step (v : Json) (tok : String) : Option Json :=
  match v with
  | .obj fields => lookupField fields tok
  | .arr elems => (parse_array_index tok).bind (fun i => elems[i]?)
  | _ => none

/-- `Value::pointer`, on an already-split token path. -/
def json_pointer (v : Json) (toks : List String) : Option Json :=
  toks.foldl (fun acc t => acc.bind (fun w => pointer_step w t)) (some v)

/-- First if-let of `extract_delta_content`:
`choices[0].delta.content` as a string. -/
def shape_delta_content (v : Json) : Option String :=
  ((((jget v "choices").bind (fun c => jidx c 0)).bind
      (fun c0 => jget c0 "delta")).bind (fun d => jget d "content")).bind as_str

/-- Second if-let of `extract_delta_content`:
`choices[0].content` as a string. -/
def shape_direct_content (v : Json) : Option String :=
  (((jget v "choices").bind (fun c => jidx c 0)).bind
      (fun c0 => jget c0 "content")).bind as_str

/-- Third if-let of `extract_delta_content`:
`v.pointer("/choices/0/delta/delta/content")` as a string. -/
def shape_double_delta (v : Json) : Option String :=
  (json_pointer v ["choices", "0", "delta", "delta", "content"]).bind as_str

/-- `extract_delta_content` (src/groq.rs 108-128): three early-return
if-let blocks, in source order. -/
def extract_delta_content (v : Json) : Option String :=
  match shape_delta_content v with
  | some s => some s
  | none =>
      match shape_direct_content v with
      | some s => some s
      | none =>
          match shape_double_delta v with
          | some s => some s
          | none => none

/-- Modelled from the spec (section 4.2): try the three response shapes in
fixed priority order and return the first successful string payload. -/
def extract_delta_spec (v : Json) : Option String :=
  (shape_delta_content v).orElse fun _ =>
    (shape_direct_content v).orElse fun _ => shape_double_delta v

/-! ### Response stream producer (src/groq.rs 55-99)

The channel is modelled by the list of messages the task passes to
`tx.send`, with a flag `co` saying whether the receiving side is still
open (`co = false` makes every send fail).  The source checks a send
result only for text deltas (`if tx.send(Ok(text)).await.is_err() return`);
sends of the completion sentinel and of errors discard the result
(`let _ = tx.send(..)`). -/

inductive ChMsg where
  | ok (s : String)
  | err (e : String)
deriving DecidableEq

def doneLit : List Char := "[DONE]".data

def dataMarker : List Char := "data: ".data

/-- `line.strip_prefix("data: ")` with fallback to the line itself. -/
def strip_marker (l : List Char) : List Char :=
  if dataMarker.isPrefixOf l then l.drop 6 else l

/-- The `for line in s.lines()` body (src/groq.rs 67-89): trim, skip empty
lines, strip the data marker, send one empty delta per `[DONE]` payload
(send result discarded), parse and extract otherwise, and abort the whole
task when a text-delta send fails.  Returns the attempted sends and
whether the task returned early. -/
def processLinesCh (parse : String → Option Json) (co : Bool) :
    List (List Char) → List ChMsg × Bool
  | [] => ([], false)
  | l :: rest =>
      let line := trimChars l
      if line = [] then processLinesCh parse co rest
      else
        let payload := strip_marker line
        if payload = doneLit then
          let r := processLinesCh parse co rest
          (ChMsg.ok "" :: r.1, r.2)
        else
          match parse (String.mk payload) with
          | none => processLinesCh parse co rest
          | some v =>
              match extract_delta_content v with
              | none => processLinesCh parse co rest
              | some t =>
                  if co then
                    let r := processLinesCh parse co rest
                    (ChMsg.ok t :: r.1, r.2)
                  else ([ChMsg.ok t], true)

/-- The sends produced by one complete frame (channel open). -/
def processFrame (parse : String → Option Json) (s : String) : List ChMsg :=
  (processLinesCh parse true (rustLines s.data)).1

/-- Marker-stripped payloads of a frame's non-empty trimmed lines. -/
def framePayloads (s : String) : List (List Char) :=
  (((rustLines s.data).map trimChars).filter (fun l => l ≠ [])).map strip_marker

/-- Process the complete frames drained after one chunk arrival: a frame
that is not valid UTF-8 is skipped (`if let Ok(s) = String::from_utf8`),
and an early return inside a frame stops all later frames. -/
def processFramesCh (parse : String → Option Json) (co : Bool) :
    List (List Nat) → List ChMsg × Bool
  | [] => ([], false)
  | fb :: rest =>
      let r := match from_utf8 fb with
        | some cs => processLinesCh parse co (rustLines cs)
        | none => (([] : List ChMsg), false)
      if r.2 then r
      else
        let r' := processFramesCh parse co rest
        (r.1 ++ r'.1, r'.2)

/-- One item of `resp.bytes_stream()`: a chunk of bytes or a read error. -/
inductive StreamItem where
  | chunk (bytes : List Nat)
  | fail (e : String)

/-- The `while let Some(item) = stream.next()` loop: on a chunk, append to
the buffer and drain/process complete frames; on a read error, send one
error (result discarded) and break. -/
def runStream (parse : String → Option Json) (co : Bool) :
    List Nat → List StreamItem → List ChMsg
  | _, [] => []
  | _, .fail e :: _ => [ChMsg.err e]
  | buf, .chunk bytes :: rest =>
      let d := drainFrames (buf ++ bytes)
      let r := processFramesCh parse co d.1
      if r.2 then r.1 else r.1 ++ runStream parse co d.2 rest

/-- Outcome of issuing the outbound request (`client.post(..).send()`). -/
inductive IssueResult where
  | fail (e : String)
  | success (items : List StreamItem)

/-- The spawned task of `ask_the_duck`: on request-issue failure, send one
error and return; otherwise run the stream loop with an empty buffer. -/
def ask_the_duck_run (parse : String → Option Json) (co : Bool) :
    IssueResult → List ChMsg
  | .fail e => [ChMsg.err e]
  | .success items => runStream parse co [] items

/-! ### Render classifier (src/tui.rs 92-181)

The semantic-highlighting loop of `Tui::draw`, as a pure function from
the response text to styled spans, one span list per line.  `Sty` names
the distinct `ratatui` styles the source builds. -/

inductive Sty where
  /-- `title_style`: bold, default colour (headers). -/
  | bold
  /-- fence lines: `Modifier::DIM` only. -/
  | dim
  /-- code lines: green foreground on indexed-234 background. -/
  | code
  /-- flag tokens: red foreground. -/
  | flag
  /-- metadata lines: indexed-240 foreground plus `Modifier::DIM`. -/
  | meta
  /-- `Span::raw`: unstyled. -/
  | raw
deriving DecidableEq

def fenceMarker : List Char := "```".data

/-- Rendering of one line inside the open glitch section: whitespace
tokens in order, each emitted with a single trailing space, flagged red
when it begins with a dash. -/
def glitchSpans (t : List Char) : List (String × Sty) :=
  (splitWs t).map fun tok =>
    (String.mk (tok ++ [' ']), if tok.head? = some '-' then Sty.flag else Sty.raw)

/-- Is this (trimmed) line a glitch-section header? -/
def isGlitchHeader (t : List Char) : Bool :=
  containsSub (toLowerL t) "the glitch".data

/-- Is this (trimmed) line a solution or pro-tip header? -/
def isCloseHeader (t : List Char) : Bool :=
  containsSub (toLowerL t) "the solution".data || containsSub (toLowerL t) "pro-tip".data

/-- Is this (trimmed) line dim metadata (src/tui.rs 159-177)? -/
def isMetaLine (t : List Char) : Bool :=
  "OS:".data.isPrefixOf t || "when:".data.isPrefixOf t || "#".data.isPrefixOf t
    || "pro-tip".data.isPrefixOf (toLowerL t) || "contextual tip".data.isPrefixOf (toLowerL t)

/-- The `for line in app_state.duck_response.lines()` classification loop,
carrying `in_code` and `in_glitch` exactly as the source does: fence test
first, then headers, then code lines, then glitch tokenization, then
metadata, then plain. -/
def classifyGo : Bool → Bool → List (List Char) → List (List (String × Sty))
  | _, _, [] => []
  | in_code, in_glitch, l :: rest =>
      let trimmed := rtrimChars l
      if fenceMarker.isPrefixOf trimmed then
        [(String.mk trimmed, Sty.dim)] :: classifyGo (!in_code) in_glitch rest
      else if isGlitchHeader trimmed then
        [(String.mk (toUpperL trimmed), Sty.bold)] :: classifyGo in_code true rest
      else if isCloseHeader trimmed then
        [(String.mk (toUpperL trimmed), Sty.bold)] :: classifyGo in_code false rest
      else if in_code then
        [(String.mk trimmed, Sty.code)] :: classifyGo in_code in_glitch rest
      else if in_glitch then
        glitchSpans trimmed :: classifyGo in_code in_glitch rest
      else if isMetaLine trimmed then
        [(String.mk trimmed, Sty.meta)] :: classifyGo in_code in_glitch rest
      else
        [(String.mk trimmed, Sty.raw)] :: classifyGo in_code in_glitch rest

/-- Classification of the whole response text (both state flags start
false; `Tui::draw` additionally prepends a constant prompt line and hands
the spans to the terminal widgets, which the claims do not concern). -/
def classifyLines (response : String) : List (List (String × Sty)) :=
  classifyGo false false (rustLines response.data)

/-! ### Event-loop orchestrator (src/main.rs 214-373)

`AppLocal` is the source's loop state.  The clipboard is an external
call, passed in as `clip : String → Except String Unit`. -/

structure AppLocal where
  error_log : String
  duck_response : String
  is_streaming : Bool
  has_git_context : Bool
deriving DecidableEq

/-- The chunk-draining loop head (src/main.rs 270-275): append every
non-empty chunk to `duck_response` and mark streaming. -/
def drainChunks : AppLocal → List String → AppLocal
  | app, [] => app
  | app, c :: cs =>
      if c = "" then drainChunks app cs
      else
        drainChunks
          (AppLocal.mk app.error_log (app.duck_response ++ c) true app.has_git_context) cs

/-- The forwarding task (src/main.rs 243-256): pass non-empty `Ok` chunks
to the app channel, stop at the first error. -/
def forwardChunks : List ChMsg → List String
  | [] => []
  | ChMsg.ok c :: rest => if c = "" then forwardChunks rest else c :: forwardChunks rest
  | ChMsg.err _ :: _ => []

/-- `trim_matches('\n')`. -/
def trimNl (l : List Char) : List Char :=
  ((l.dropWhile (· = '\n')).reverse.dropWhile (· = '\n')).reverse

/-- A complete fenced block inside `range`: the text between the first
"```" and the next "```", newline-trimmed (src/main.rs 301-307). -/
def extractFenced (range : List Char) : Option (List Char) :=
  match findSub range fenceMarker with
  | none => none
  | some start =>
      match findSub (range.drop (start + 3)) fenceMarker with
      | none => none
      | some e => some (trimNl ((range.drop (start + 3)).take e))

/-- The text the copy-fix key puts on the clipboard (src/main.rs 292-327):
prefer a fenced block inside "The Solution", then that whole section, else
the first fenced block globally, else the whole trimmed response. -/
def computeToCopy (response : String) : String :=
  let cs := response.data
  match findSub (toLowerL cs) "the solution".data with
  | some idx =>
      let rest := cs.drop idx
      match extractFenced rest with
      | some code => String.mk code
      | none => String.mk (trimChars rest)
  | none =>
      match extractFenced cs with
      | some code => String.mk code
      | none => String.mk (trimChars cs)

/-- The `'y'` key handler (src/main.rs 292-339): compute the text to copy,
attempt the clipboard call, and append a bracketed status line to the
error pane. -/
def handleCopyKey (clip : String → Except String Unit) (app : AppLocal) : AppLocal :=
  let text := computeToCopy app.duck_response
  match clip text with
  | Except.ok _ =>
      AppLocal.mk (app.error_log ++ "\n\n[Copied fix to clipboard]")
        app.duck_response app.is_streaming app.has_git_context
  | Except.error e =>
      AppLocal.mk (app.error_log ++ "\n\n[Copy failed: " ++ e ++ "]")
        app.duck_response app.is_streaming app.has_git_context

/-- Key codes the loop reacts to (all others are ignored). -/
inductive Key where
  | q
  | esc
  | y
  | r
  | other

/-- The key dispatch of the main loop (src/main.rs 288-371): `q`/Esc quit;
`y` copies; `r` spawns a fresh producer on the same channel and leaves the
app state untouched (the source comment: "it will not cancel the previous
background task"); anything else is ignored.  Returns the new state and
whether the loop breaks. -/
def handleKey (clip : String → Except String Unit) (app : AppLocal) :
    Key → AppLocal × Bool
  | Key.q => (app, true)
  | Key.esc => (app, true)
  | Key.y => (handleCopyKey clip app, false)
  | Key.r => (app, false)
  | Key.other => (app, false)

/-- A record carrying all three extraction shapes at once:
`choices[0].delta.content = "A"`, `choices[0].content = "B"`,
`choices[0].delta.delta.content = "C"`. -/
def recordAllShapes : Json :=
  Json.obj [("choices", Json.arr [Json.obj
    [("delta", Json.obj [("content", Json.str "A"),
        ("delta", Json.obj [("content", Json.str "C")])]),
      ("content", Json.str "B")]])]

/-- A record carrying only the second and third shapes. -/
def recordTwoShapes : Json :=
  Json.obj [("choices", Json.arr [Json.obj
    [("content", Json.str "B"),
      ("delta", Json.obj [("delta", Json.obj [("content", Json.str "C")])])]])]

/-- A record carrying only the doubly-nested shape. -/
def recordThirdShape : Json :=
  Json.obj [("choices", Json.arr [Json.obj
    [("delta", Json.obj [("delta", Json.obj [("content", Json.str "C")])])]])]

theorem find_double_newline_lt {buf : List Nat} {p : Nat}
    (h : find_double_newline buf = some p) : p + 2 ≤ buf.length := by
  induction buf generalizing p with
  | nil => simp [find_double_newline] at h
  | cons a rest ih =>
      cases rest with
      | nil => simp [find_double_newline] at h
      | cons b rest' =>
          rw [find_double_newline] at h
          by_cases hab : a = 10 ∧ b = 10
          · simp [hab] at h
            simp only [List.length_cons]
            omega
          · simp [hab] at h
            obtain ⟨q, hq, rfl⟩ := h
            have := ih hq
            simp only [List.length_cons] at this ⊢
            omega

theorem find_double_newline_append {buf : List Nat} {p : Nat} (c : List Nat)
    (h : find_double_newline buf = some p) :
    find_double_newline (buf ++ c) = some p := by
  induction buf generalizing p with
  | nil => simp [find_double_newline] at h
  | cons a rest ih =>
      cases rest with
      | nil => simp [find_double_newline] at h
      | cons b rest' =>
          rw [find_double_newline] at h
          rw [List.cons_append, List.cons_append, find_double_newline]
          by_cases hab : a = 10 ∧ b = 10
          · simp [hab] at h ⊢
            omega
          · simp [hab] at h ⊢
            obtain ⟨q, hq, rfl⟩ := h
            have := ih hq
            rw [List.cons_append] at this
            exact ⟨q, this, rfl⟩

theorem drainFramesF_congr :
    ∀ n m buf, buf.length ≤ n → buf.length ≤ m →
      drainFramesF n buf = drainFramesF m buf := by
  intro n
  induction n with
  | zero =>
      intro m buf hn _
      have : buf = [] := List.length_eq_zero.mp (Nat.le_zero.mp hn)
      subst this
      cases m <;> simp [drainFramesF, find_double_newline]
  | succ n ih =>
      intro m buf hn hm
      cases m with
      | zero =>
          have : buf = [] := List.length_eq_zero.mp (Nat.le_zero.mp hm)
          subst this
          simp [drainFramesF, find_double_newline]
      | succ m =>
          rw [drainFramesF, drainFramesF]
          cases hfind : find_double_newline buf with
          | none => rfl
          | some pos =>
              have hlen := find_double_newline_lt hfind
              have hrest : (buf.drop (pos + 2)).length ≤ n := by
                rw [List.length_drop]; omega
              have hrest' : (buf.drop (pos + 2)).length ≤ m := by
                rw [List.length_drop]; omega
              simp only
              rw [ih m (buf.drop (pos + 2)) hrest hrest']

/-- Unfolding equation for `drainFrames` (hides the fuel). -/
theorem drainFrames_eq (buf : List Nat) :
    drainFrames buf =
      match find_double_newline buf with
      | none => ([], buf)
      | some pos =>
          ((buf.take (pos + 2)) :: (drainFrames (buf.drop (pos + 2))).1,
            (drainFrames (buf.drop (pos + 2))).2) := by
  cases hbuf : buf.length with
  | zero =>
      have : buf = [] := List.length_eq_zero.mp hbuf
      subst this
      simp [drainFrames, drainFramesF, find_double_newline]
  | succ k =>
      unfold drainFrames
      rw [hbuf, drainFramesF]
      cases hfind : find_double_newline buf with
      | none => rfl
      | some pos =>
          have hlen := find_double_newline_lt hfind
          rw [hbuf] at hlen
          have hrest : (buf.drop (pos + 2)).length ≤ k := by
            rw [List.length_drop]; omega
          simp only
          rw [drainFramesF_congr k (buf.drop (pos + 2)).length (buf.drop (pos + 2)) hrest (Nat.le_refl _)]

theorem drainFrames_none {buf : List Nat} (h : find_double_newline buf = none) :
    drainFrames buf = ([], buf) := by
  rw [drainFrames_eq, h]

/-- After the drain loop finishes, the residual buffer holds no complete
frame (this is exactly the loop's exit condition). -/
theorem drainFrames_residual (buf : List Nat) :
    find_double_newline (drainFrames buf).2 = none := by
  suffices h : ∀ n buf, List.length buf ≤ n → find_double_newline (drainFrames buf).2 = none from
    h buf.length buf (Nat.le_refl _)
  intro n
  induction n with
  | zero =>
      intro buf hb
      have : buf = [] := List.length_eq_zero.mp (Nat.le_zero.mp hb)
      subst this
      simp [drainFrames, drainFramesF, find_double_newline]
  | succ n ih =>
      intro buf hb
      rw [drainFrames_eq]
      cases hfind : find_double_newline buf with
      | none => simpa using hfind
      | some pos =>
          have hlen := find_double_newline_lt hfind
          have hle : (buf.drop (pos + 2)).length ≤ n := by
            rw [List.length_drop]; omega
          simpa using ih _ hle

/-- Draining a buffer extended by a chunk first yields the frames already
complete in the buffer, then the frames of the residual extended by the
chunk. -/
theorem drainFrames_append (buf c : List Nat) :
    drainFrames (buf ++ c) =
      ((drainFrames buf).1 ++ (drainFrames ((drainFrames buf).2 ++ c)).1,
        (drainFrames ((drainFrames buf).2 ++ c)).2) := by
  suffices h : ∀ n buf, List.length buf ≤ n →
      drainFrames (buf ++ c) =
        ((drainFrames buf).1 ++ (drainFrames ((drainFrames buf).2 ++ c)).1,
          (drainFrames ((drainFrames buf).2 ++ c)).2) from
    h buf.length buf (Nat.le_refl _)
  intro n
  induction n with
  | zero =>
      intro buf hb
      have : buf = [] := List.length_eq_zero.mp (Nat.le_zero.mp hb)
      subst this
      have : drainFrames ([] : List Nat) = ([], []) := by
        simp [drainFrames, drainFramesF, find_double_newline]
      simp [this]
  | succ n ih =>
      intro buf hb
      cases hfind : find_double_newline buf with
      | none =>
          rw [drainFrames_none hfind]
          simp
      | some pos =>
          have hlen := find_double_newline_lt hfind
          have hfind' := find_double_newline_append c hfind
          have htake : (buf ++ c).take (pos + 2) = buf.take (pos + 2) :=
            List.take_append_of_le_length hlen
          have hdrop : (buf ++ c).drop (pos + 2) = buf.drop (pos + 2) ++ c :=
            List.drop_append_of_le_length hlen
          have hle : (buf.drop (pos + 2)).length ≤ n := by
            rw [List.length_drop]; omega
          have ihr := ih (buf.drop (pos + 2)) hle
          rw [drainFrames_eq (buf ++ c), hfind', drainFrames_eq buf, hfind]
          simp only [htake, hdrop, ihr, List.cons_append]

/-- A buffer holding no complete frame absorbs chunk-at-a-time feeding:
the frames produced equal those of draining the whole joined stream. -/
theorem feedAll_join (cs : List (List Nat)) :
    ∀ buf, find_double_newline buf = none →
      feedAll buf cs = drainFrames (buf ++ cs.flatten) := by
  induction cs with
  | nil =>
      intro buf hbuf
      simp [feedAll, drainFrames_none hbuf]
  | cons c cs ih =>
      intro buf hbuf
      have hres := drainFrames_residual (buf ++ c)
      have ihr := ih _ hres
      show ((feed buf c).1 ++ (feedAll (feed buf c).2 cs).1,
        (feedAll (feed buf c).2 cs).2) = _
      rw [List.flatten_cons, ← List.append_assoc]
      rw [drainFrames_append (buf ++ c) cs.flatten]
      unfold feed
      rw [ihr]

/-! ### Helper lemmas about the producer -/

/-- With the receiver listening, line processing never aborts and sends
only `Ok` values. -/
theorem processLinesCh_open (parse : String → Option Json) (ls : List (List Char)) :
    (processLinesCh parse true ls).2 = false ∧
      ∀ m ∈ (processLinesCh parse true ls).1, ∃ s, m = ChMsg.ok s := by
  induction ls with
  | nil => simp [processLinesCh]
  | cons l rest ih =>
      rw [processLinesCh]
      by_cases h1 : trimChars l = []
      · simpa [h1] using ih
      · simp only [h1, if_false]
        by_cases h2 : strip_marker (trimChars l) = doneLit
        · simp only [h2, if_true]
          refine ⟨ih.1, ?_⟩
          intro m hm
          rcases List.mem_cons.mp hm with hm | hm
          · exact ⟨"", hm⟩
          · exact ih.2 m hm
        · simp only [h2, if_false]
          cases hp : parse (String.mk (strip_marker (trimChars l))) with
          | none => simpa only [hp] using ih
          | some v =>
              simp only [hp]
              cases he : extract_delta_content v with
              | none => simpa only [he] using ih
              | some t =>
                  simp only [he, if_true]
                  refine ⟨ih.1, ?_⟩
                  intro m hm
                  rcases List.mem_cons.mp hm with hm | hm
                  · exact ⟨t, hm⟩
                  · exact ih.2 m hm

/-- With the receiver listening, frame processing never aborts and sends
only `Ok` values. -/
theorem processFramesCh_open (parse : String → Option Json) (fbs : List (List Nat)) :
    (processFramesCh parse true fbs).2 = false ∧
      ∀ m ∈ (processFramesCh parse true fbs).1, ∃ s, m = ChMsg.ok s := by
  induction fbs with
  | nil => simp [processFramesCh]
  | cons fb rest ih =>
      rw [processFramesCh]
      cases hd : from_utf8 fb with
      | none =>
          simp only [hd]
          refine ⟨ih.1, ?_⟩
          intro m hm
          simp only [List.nil_append] at hm
          exact ih.2 m hm
      | some cs =>
          simp only [hd, (processLinesCh_open parse (rustLines cs)).1, if_false]
          refine ⟨ih.1, ?_⟩
          intro m hm
          rcases List.mem_append.mp hm with hm | hm
          · exact (processLinesCh_open parse (rustLines cs)).2 m hm
          · exact ih.2 m hm

/-- With the receiver listening, a run over `Ok` chunks followed by a read
error sends some `Ok` deltas and then exactly one error, and nothing of
the stream past the error. -/
theorem runStream_error_stop (parse : String → Option Json) (e : String) :
    ∀ pre, (∀ i ∈ pre, ∃ b, i = StreamItem.chunk b) → ∀ rest buf,
      ∃ msgs, runStream parse true buf (pre ++ StreamItem.fail e :: rest) =
          msgs ++ [ChMsg.err e] ∧ ∀ m ∈ msgs, ∃ s, m = ChMsg.ok s := by
  intro pre
  induction pre with
  | nil =>
      intro _ rest buf
      exact ⟨[], rfl, by simp⟩
  | cons i pre ih =>
      intro hpre rest buf
      obtain ⟨b, rfl⟩ := hpre i (List.mem_cons_self i pre)
      have hpre' : ∀ j ∈ pre, ∃ b, j = StreamItem.chunk b := fun j hj =>
        hpre j (List.mem_cons_of_mem _ hj)
      obtain ⟨msgs, hrun, hok⟩ :=
        ih hpre' rest (drainFrames (buf ++ b)).2
      rw [List.cons_append, runStream]
      simp only [(processFramesCh_open parse (drainFrames (buf ++ b)).1).1,
        Bool.false_eq_true, if_false]
      refine ⟨(processFramesCh parse true (drainFrames (buf ++ b)).1).1 ++ msgs, ?_, ?_⟩
      · rw [hrun, List.append_assoc]
      · intro m hm
        rcases List.mem_append.mp hm with hm | hm
        · exact (processFramesCh_open parse (drainFrames (buf ++ b)).1).2 m hm
        · exact hok m hm

theorem mem_cons_dropLast {α : Type} {m x : α} {xs : List α}
    (hm : m ∈ (x :: xs).dropLast) : m = x ∨ m ∈ xs.dropLast := by
  cases xs with
  | nil => simp [List.dropLast] at hm
  | cons a l =>
      rw [List.dropLast_cons₂] at hm
      exact List.mem_cons.mp hm

theorem mem_append_dropLast {α : Type} {P : α → Prop} {xs ys : List α}
    (hxs : ∀ m ∈ xs, P m) (hys : ∀ m ∈ ys.dropLast, P m) :
    ∀ m ∈ (xs ++ ys).dropLast, P m := by
  cases ys with
  | nil =>
      intro m hm
      rw [List.append_nil] at hm
      exact hxs m (List.dropLast_subset xs hm)
  | cons a l =>
      intro m hm
      rw [List.dropLast_append_cons] at hm
      rcases List.mem_append.mp hm with hm | hm
      · exact hxs m hm
      · exact hys m hm

/-- With the receiver gone, every line-processing send attempted before
the last one is the ignored empty completion delta: a failed text-delta
send aborts the task at once. -/
theorem processLinesCh_closed (parse : String → Option Json) (ls : List (List Char)) :
    (∀ m ∈ (processLinesCh parse false ls).1.dropLast, m = ChMsg.ok "") ∧
      ((processLinesCh parse false ls).2 = false →
        ∀ m ∈ (processLinesCh parse false ls).1, m = ChMsg.ok "") := by
  induction ls with
  | nil => simp [processLinesCh]
  | cons l rest ih =>
      rw [processLinesCh]
      by_cases h1 : trimChars l = []
      · simpa [h1] using ih
      · simp only [h1, if_false]
        by_cases h2 : strip_marker (trimChars l) = doneLit
        · simp only [h2, if_true]
          constructor
          · intro m hm
            rcases mem_cons_dropLast hm with rfl | hm
            · rfl
            · exact ih.1 m hm
          · intro hab m hm
            rcases List.mem_cons.mp hm with rfl | hm
            · rfl
            · exact ih.2 hab m hm
        · simp only [h2, if_false]
          cases hp : parse (String.mk (strip_marker (trimChars l))) with
          | none => simpa only [hp] using ih
          | some v =>
              simp only [hp]
              cases he : extract_delta_content v with
              | none => simpa only [he] using ih
              | some t =>
                  simp only [he, Bool.false_eq_true, if_false]
                  exact ⟨by simp, by simp⟩

/-- With the receiver gone, every frame-processing send attempted before
the last one is the ignored empty completion delta. -/
theorem processFramesCh_closed (parse : String → Option Json) (fbs : List (List Nat)) :
    (∀ m ∈ (processFramesCh parse false fbs).1.dropLast, m = ChMsg.ok "") ∧
      ((processFramesCh parse false fbs).2 = false →
        ∀ m ∈ (processFramesCh parse false fbs).1, m = ChMsg.ok "") := by
  induction fbs with
  | nil => simp [processFramesCh]
  | cons fb rest ih =>
      rw [processFramesCh]
      cases hd : from_utf8 fb with
      | none =>
          simp only [hd, Bool.false_eq_true, if_false]
          refine ⟨?_, ?_⟩
          · intro m hm
            rw [List.nil_append] at hm
            exact ih.1 m hm
          · intro hab m hm
            rw [List.nil_append] at hm
            exact ih.2 hab m hm
      | some cs =>
          simp only [hd]
          cases hab : (processLinesCh parse false (rustLines cs)).2 with
          | true =>
              simp only [if_true]
              exact ⟨(processLinesCh_closed parse (rustLines cs)).1, by simp [hab]⟩
          | false =>
              simp only [Bool.false_eq_true, if_false]
              have hall := (processLinesCh_closed parse (rustLines cs)).2 hab
              refine ⟨?_, ?_⟩
              · exact mem_append_dropLast hall ih.1
              · intro hab' m hm
                rcases List.mem_append.mp hm with hm | hm
                · exact hall m hm
                · exact ih.2 hab' m hm

/-- With the receiver gone, every send the stream loop attempts before the
last one is the ignored empty completion delta. -/
theorem runStream_closed (parse : String → Option Json) :
    ∀ items buf, ∀ m ∈ (runStream parse false buf items).dropLast, m = ChMsg.ok "" := by
  intro items
  induction items with
  | nil => intro buf m hm; simp [runStream] at hm
  | cons i rest ih =>
      intro buf
      cases i with
      | fail e => intro m hm; simp [runStream] at hm
      | chunk bytes =>
          rw [runStream]
          cases hab : (processFramesCh parse false (drainFrames (buf ++ bytes)).1).2 with
          | true =>
              simp only [if_true]
              exact (processFramesCh_closed parse _).1
          | false =>
              simp only [Bool.false_eq_true, if_false]
              exact mem_append_dropLast ((processFramesCh_closed parse _).2 hab)
                (ih (drainFrames (buf ++ bytes)).2)

/-! ### Claim theorems -/

/-- Claim C1: frame reassembly is split-invariant — feeding any chunking
of a byte sequence through `feed` one chunk at a time yields exactly the
frames (and residual buffer) of feeding the whole sequence as one chunk;
in particular (second conjunct) a delimiter whose two newlines arrive in
different chunks is still recognized. -/
theorem frame_reassembly_split_invariant :
    (∀ chunks : List (List Nat), feedAll [] chunks = feedAll [] [chunks.flatten]) ∧
    (feedAll [] [[65, 10], [10]]).1 = [[65, 10, 10]] := by
  constructor
  · intro chunks
    have h0 : find_double_newline ([] : List Nat) = none := rfl
    rw [feedAll_join chunks [] h0, feedAll_join [chunks.flatten] [] h0]
    simp
  · rfl

/-- Claim C2: the delta extractor tries exactly the three known shapes in
fixed priority order — `choices[0].delta.content`, then
`choices[0].content`, then `choices[0].delta.delta.content` — returning
the payload of the first that matches (so with several shapes present the
highest-priority one wins), and a line whose payload does not parse or
matches no shape yields nothing while the rest of the frame is still
processed. -/
theorem extractor_priority :
    (∀ v, extract_delta_content v = extract_delta_spec v) ∧
    (∀ v s, shape_delta_content v = some s → extract_delta_content v = some s) ∧
    (∀ v s, shape_delta_content v = none → shape_direct_content v = some s →
      extract_delta_content v = some s) ∧
    (∀ v s, shape_delta_content v = none → shape_direct_content v = none →
      shape_double_delta v = some s → extract_delta_content v = some s) ∧
    (∀ v, shape_delta_content v = none → shape_direct_content v = none →
      shape_double_delta v = none → extract_delta_content v = none) ∧
    (∀ parse co l rest, trimChars l ≠ [] → strip_marker (trimChars l) ≠ doneLit →
      (parse (String.mk (strip_marker (trimChars l)))).bind extract_delta_content = none →
      processLinesCh parse co (l :: rest) = processLinesCh parse co rest) := by
  refine ⟨?_, ?_, ?_, ?_, ?_, ?_⟩
  · intro v
    unfold extract_delta_content extract_delta_spec
    cases shape_delta_content v <;> cases shape_direct_content v <;>
      cases shape_double_delta v <;> rfl
  · intro v s h
    unfold extract_delta_content
    rw [h]
  · intro v s h1 h2
    unfold extract_delta_content
    rw [h1, h2]
  · intro v s h1 h2 h3
    unfold extract_delta_content
    rw [h1, h2, h3]
  · intro v h1 h2 h3
    unfold extract_delta_content
    rw [h1, h2, h3]
  · intro parse co l rest h1 h2 hb
    rw [processLinesCh]
    simp only [h1, if_false, h2]
    cases hp : parse (String.mk (strip_marker (trimChars l))) with
    | none => rfl
    | some v =>
        rw [hp, Option.some_bind] at hb
        simp only [hp, hb]

/-- Witness for C2 at concrete inputs: with all three shapes present the
first wins ("A"); with the first absent the second wins ("B"); with only
the third present it is used ("C"); and a line whose payload does not
parse leaves the rest of the frame processed. -/
theorem extractor_priority_witness :
    (shape_delta_content recordAllShapes = some "A" ∧
      extract_delta_content recordAllShapes = some "A") ∧
    (shape_delta_content recordTwoShapes = none ∧
      shape_direct_content recordTwoShapes = some "B" ∧
      extract_delta_content recordTwoShapes = some "B") ∧
    (shape_delta_content recordThirdShape = none ∧
      shape_direct_content recordThirdShape = none ∧
      shape_double_delta recordThirdShape = some "C" ∧
      extract_delta_content recordThirdShape = some "C") ∧
    processLinesCh (fun _ => none) true ["data: x".data, "data: [DONE]".data] =
      processLinesCh (fun _ => none) true ["data: [DONE]".data] :=
  ⟨⟨by decide, extractor_priority.2.1 recordAllShapes "A" (by decide)⟩,
    ⟨by decide, by decide,
      extractor_priority.2.2.1 recordTwoShapes "B" (by decide) (by decide)⟩,
    ⟨by decide, by decide, by decide,
      extractor_priority.2.2.2.1 recordThirdShape "C" (by decide) (by decide) (by decide)⟩,
    extractor_priority.2.2.2.2.2 (fun _ => none) true "data: x".data ["data: [DONE]".data]
      (by decide) (by decide) rfl⟩

/-- Claim C3 counterexample: from a state whose accumulated response text
is "old", the re-run keypress leaves the accumulated response text equal
to "old" — it does not restart from the empty string, so the buffer can
go on to hold deltas of more than one request. -/
theorem rerun_reset_counterexample :
    (handleKey (fun _ => Except.ok ()) (AppLocal.mk "err" "old" false false)
        Key.r).1.duck_response = "old" ∧ ("old" : String) ≠ "" := by
  exact ⟨rfl, by decide⟩

/-- Claim C3 (amended): the re-run key spawns a fresh producer on the same
channel and leaves the orchestrator state untouched — the ResponseBuffer
is NOT replaced by an empty one, and deltas received afterwards are
appended to the already-accumulated text. -/
theorem rerun_keeps_buffer :
    (∀ clip app, handleKey clip app Key.r = (app, false)) ∧
    (∀ clip app c, c ≠ "" →
      (drainChunks (handleKey clip app Key.r).1 [c]).duck_response =
        app.duck_response ++ c) := by
  constructor
  · intro clip app
    rfl
  · intro clip app c hc
    show (drainChunks app [c]).duck_response = app.duck_response ++ c
    rw [drainChunks]
    simp only [hc, if_false]
    rfl

/-- Witness for the amended C3: with buffer "old", after the re-run key a
delta "new" extends the buffer to "oldnew". -/
theorem rerun_keeps_buffer_witness :
    ("new" : String) ≠ "" ∧
      (drainChunks (handleKey (fun _ => Except.ok ())
          (AppLocal.mk "err" "old" false false) Key.r).1 ["new"]).duck_response =
        "old" ++ "new" :=
  ⟨by decide, rerun_keeps_buffer.2 (fun _ => Except.ok ())
    (AppLocal.mk "err" "old" false false) "new" (by decide)⟩

/-- Payloads of frames with no processable line produce no sends. -/
theorem processLinesCh_payloads_nil (parse : String → Option Json) :
    ∀ ls : List (List Char),
      ((ls.map trimChars).filter (fun l => l ≠ [])).map strip_marker = [] →
      processLinesCh parse true ls = ([], false) := by
  intro ls
  induction ls with
  | nil => intro _; rfl
  | cons l rest ih =>
      intro h
      rw [List.map_cons, List.filter_cons] at h
      by_cases h1 : trimChars l = []
      · simp only [h1] at h
        rw [processLinesCh]
        simp only [h1, if_true]
        exact ih (by simpa using h)
      · simp [h1] at h

/-- A frame whose only payload is the completion literal sends exactly one
empty delta. -/
theorem processLinesCh_done (parse : String → Option Json) :
    ∀ ls : List (List Char),
      ((ls.map trimChars).filter (fun l => l ≠ [])).map strip_marker = [doneLit] →
      (processLinesCh parse true ls).1 = [ChMsg.ok ""] := by
  intro ls
  induction ls with
  | nil => intro h; simp at h
  | cons l rest ih =>
      intro h
      rw [List.map_cons, List.filter_cons] at h
      by_cases h1 : trimChars l = []
      · simp only [h1] at h
        rw [processLinesCh]
        simp only [h1, if_true]
        exact ih (by simpa using h)
      · rw [if_pos (by simp [h1])] at h
        rw [List.map_cons, List.cons_eq_cons] at h
        obtain ⟨hhead, htail⟩ := h
        rw [processLinesCh]
        simp only [h1, if_false, hhead, if_true]
        rw [processLinesCh_payloads_nil parse rest htail]

/-- Claim C4: a frame whose marker-stripped payload is exactly the
completion literal "[DONE]" yields exactly one delta, the empty-text
`EndOfStream` representation, and no text delta; the forwarding task never
passes an empty chunk on, and the orchestrator's drain loop never appends
an empty chunk to the ResponseBuffer. -/
theorem done_sentinel_delta :
    (∀ parse s, framePayloads s = [doneLit] → processFrame parse s = [ChMsg.ok ""]) ∧
    (∀ msgs c, c ∈ forwardChunks msgs → c ≠ "") ∧
    (∀ app cs, drainChunks app ("" :: cs) = drainChunks app cs) := by
  refine ⟨?_, ?_, ?_⟩
  · intro parse s h
    exact processLinesCh_done parse (rustLines s.data) h
  · intro msgs
    induction msgs with
    | nil => intro c hc; simp [forwardChunks] at hc
    | cons m rest ih =>
        intro c hc
        cases m with
        | ok s =>
            rw [forwardChunks] at hc
            by_cases hs : s = ""
            · rw [if_pos hs] at hc
              exact ih c hc
            · rw [if_neg hs] at hc
              rcases List.mem_cons.mp hc with rfl | hc
              · exact hs
              · exact ih c hc
        | err e => simp [forwardChunks] at hc
  · intro app cs
    rw [drainChunks]
    simp

/-- Witness for C4: the literal frame "data: [DONE]\n\n". -/
theorem done_sentinel_delta_witness :
    (framePayloads "data: [DONE]\n\n" = [doneLit] ∧
      processFrame (fun _ => none) "data: [DONE]\n\n" = [ChMsg.ok ""]) ∧
    ("x" ∈ forwardChunks [ChMsg.ok "x"] ∧ ("x" : String) ≠ "") :=
  ⟨⟨by decide, done_sentinel_delta.1 (fun _ => none) "data: [DONE]\n\n" (by decide)⟩,
    ⟨by decide, done_sentinel_delta.2.1 [ChMsg.ok "x"] "x" (by decide)⟩⟩

/-- Claim C5: a failure at request-issue time makes the producer send
exactly one error and terminate — no delta, no retry; and a mid-stream
read error after any run of good chunks makes it send the deltas of those
chunks followed by exactly one error, after which nothing further (in
particular nothing of the rest of the stream) is sent. -/
theorem producer_single_error :
    (∀ parse co e, ask_the_duck_run parse co (IssueResult.fail e) = [ChMsg.err e]) ∧
    (∀ parse e pre rest, (∀ i ∈ pre, ∃ b, i = StreamItem.chunk b) →
      ∃ msgs, ask_the_duck_run parse true
          (IssueResult.success (pre ++ StreamItem.fail e :: rest)) =
            msgs ++ [ChMsg.err e] ∧ ∀ m ∈ msgs, ∃ s, m = ChMsg.ok s) := by
  constructor
  · intro parse co e
    rfl
  · intro parse e pre rest hpre
    exact runStream_error_stop parse e pre hpre rest []

/-- Witness for C5: one empty chunk, then a read error "boom". -/
theorem producer_single_error_witness :
    ∃ msgs, ask_the_duck_run (fun _ => none) true
        (IssueResult.success ([StreamItem.chunk []] ++ StreamItem.fail "boom" :: [])) =
          msgs ++ [ChMsg.err "boom"] ∧ ∀ m ∈ msgs, ∃ s, m = ChMsg.ok s :=
  producer_single_error.2 (fun _ => none) "boom" [StreamItem.chunk []] []
    (by intro i hi; simp at hi; exact ⟨[], hi⟩)

/-- Claim C6 counterexample: with the receiver gone from the start (every
send fails), a stream of two "[DONE]" frames makes the producer attempt a
second send after the first failed one — the failed send of the empty
completion delta is ignored (`let _ = tx.send(..)`) and the next frame is
still processed, so the producer does not stop at the first failed send. -/
theorem channel_closed_counterexample :
    ask_the_duck_run (fun _ => none) false
        (IssueResult.success [StreamItem.chunk
          ("data: [DONE]\n\ndata: [DONE]\n\n".data.map Char.toNat)]) =
      [ChMsg.ok "", ChMsg.ok ""] := by
  decide

/-- Claim C6 (amended): with the receiver gone nothing is delivered and no
error is surfaced, and the producer stops at the first failed text-delta
send (`if tx.send(Ok(text)).await.is_err() return`); failed sends of the
empty completion delta are ignored and processing continues past them, so
every attempted send except possibly the final one is the empty delta. -/
theorem channel_closed_silent (parse : String → Option Json) (r : IssueResult) :
    ((ask_the_duck_run parse false r).dropLast.all
      fun m => m = ChMsg.ok "") = true := by
  rw [List.all_eq_true]
  intro m hm
  rw [decide_eq_true_iff]
  cases r with
  | fail e => simp [ask_the_duck_run] at hm
  | success items => exact runStream_closed parse items [] m hm

/-! ### Classifier step lemmas (shared by the claim theorems) -/

theorem classifyGo_fence (in_code in_glitch : Bool) (l : List Char)
    (rest : List (List Char)) (h : fenceMarker.isPrefixOf (rtrimChars l)) :
    classifyGo in_code in_glitch (l :: rest) =
      [(String.mk (rtrimChars l), Sty.dim)] :: classifyGo (!in_code) in_glitch rest := by
  rw [classifyGo]
  simp only [h, if_true]

theorem classifyGo_code (in_glitch : Bool) (l : List Char)
    (rest : List (List Char)) (h1 : ¬ fenceMarker.isPrefixOf (rtrimChars l))
    (h2 : isGlitchHeader (rtrimChars l) = false)
    (h3 : isCloseHeader (rtrimChars l) = false) :
    classifyGo true in_glitch (l :: rest) =
      [(String.mk (rtrimChars l), Sty.code)] :: classifyGo true in_glitch rest := by
  rw [classifyGo]
  simp only [h1, h2, h3, Bool.false_eq_true, if_false, if_true]

theorem classifyGo_glitch (l : List Char) (rest : List (List Char))
    (h1 : ¬ fenceMarker.isPrefixOf (rtrimChars l))
    (h2 : isGlitchHeader (rtrimChars l) = false)
    (h3 : isCloseHeader (rtrimChars l) = false) :
    classifyGo false true (l :: rest) =
      glitchSpans (rtrimChars l) :: classifyGo false true rest := by
  rw [classifyGo]
  simp only [h1, h2, h3, Bool.false_eq_true, if_false, if_true]

/-- Claim C7: on input "```\ncode\n```\nplain" exactly the line "code" is
code-styled and exactly "plain" is plain; in general a fence line toggles
the code-fence state and renders dimmed (never code-styled), and a
non-fence, non-header line inside an open fence renders as one code-styled
span holding the whole (end-trimmed) line verbatim. -/
theorem fence_classification :
    (classifyLines "```\ncode\n```\nplain" =
      [[("```", Sty.dim)], [("code", Sty.code)], [("```", Sty.dim)],
        [("plain", Sty.raw)]]) ∧
    (∀ in_code in_glitch l rest, fenceMarker.isPrefixOf (rtrimChars l) →
      classifyGo in_code in_glitch (l :: rest) =
        [(String.mk (rtrimChars l), Sty.dim)] :: classifyGo (!in_code) in_glitch rest) ∧
    (∀ in_glitch l rest, ¬ fenceMarker.isPrefixOf (rtrimChars l) →
      isGlitchHeader (rtrimChars l) = false → isCloseHeader (rtrimChars l) = false →
      classifyGo true in_glitch (l :: rest) =
        [(String.mk (rtrimChars l), Sty.code)] :: classifyGo true in_glitch rest) := by
  refine ⟨by decide, ?_, ?_⟩
  · intro in_code in_glitch l rest h
    exact classifyGo_fence in_code in_glitch l rest h
  · intro in_glitch l rest h1 h2 h3
    exact classifyGo_code in_glitch l rest h1 h2 h3

/-- Witness for C7: the fence step at "```" with the fence open, and the
code step at "hello" inside an open fence. -/
theorem fence_classification_witness :
    (fenceMarker.isPrefixOf (rtrimChars "```".data) = true ∧
      classifyGo true false ("```".data :: []) =
        [(String.mk (rtrimChars "```".data), Sty.dim)] :: classifyGo false false []) ∧
    (¬ fenceMarker.isPrefixOf (rtrimChars "hello".data) ∧
      classifyGo true false ("hello".data :: []) =
        [(String.mk (rtrimChars "hello".data), Sty.code)] :: classifyGo true false []) :=
  ⟨⟨by decide, fence_classification.2.1 true false "```".data [] (by decide)⟩,
    ⟨by decide, fence_classification.2.2 false "hello".data [] (by decide)
      (by decide) (by decide)⟩⟩

/-- Claim C8 counterexample: inside the open glitch section, the line
"rm  -rf" (two spaces between the tokens) renders as the spans "rm " and
"-rf " — each token is emitted with exactly one trailing space — so the
concatenated rendering "rm -rf " differs from the original line: the
original spacing granularity is NOT preserved. -/
theorem flag_spacing_counterexample :
    classifyGo false true ["rm  -rf".data] = [[("rm ", Sty.raw), ("-rf ", Sty.flag)]] ∧
      ("rm " ++ "-rf " : String) ≠ "rm  -rf" := by
  exact ⟨by decide, by decide⟩

/-- Claim C8 (amended): while the glitch section is open (and the line is
not a fence, header, or in-fence line), the line is split on whitespace
and rendered one span per token in original token order, dash-initial
tokens flagged and all others plain, each token emitted with exactly one
trailing space (the original inter-token spacing is collapsed); in
particular "rm -rf /tmp" yields rm (plain), -rf (flagged), /tmp (plain),
in that order. -/
theorem flag_highlighting :
    (∀ l rest, ¬ fenceMarker.isPrefixOf (rtrimChars l) →
      isGlitchHeader (rtrimChars l) = false → isCloseHeader (rtrimChars l) = false →
      classifyGo false true (l :: rest) =
        ((splitWs (rtrimChars l)).map fun tok =>
            (String.mk (tok ++ [' ']),
              if tok.head? = some '-' then Sty.flag else Sty.raw))
          :: classifyGo false true rest) ∧
    (classifyGo false true ["rm -rf /tmp".data] =
      [[("rm ", Sty.raw), ("-rf ", Sty.flag), ("/tmp ", Sty.raw)]]) := by
  constructor
  · intro l rest h1 h2 h3
    exact classifyGo_glitch l rest h1 h2 h3
  · decide

/-- Witness for the amended C8: the glitch step applied at "a -b". -/
theorem flag_highlighting_witness :
    (¬ fenceMarker.isPrefixOf (rtrimChars "a -b".data)) ∧
      classifyGo false true ("a -b".data :: []) =
        ((splitWs (rtrimChars "a -b".data)).map fun tok =>
            (String.mk (tok ++ [' ']),
              if tok.head? = some '-' then Sty.flag else Sty.raw))
          :: classifyGo false true [] :=
  ⟨by decide, flag_highlighting.1 "a -b".data [] (by decide) (by decide) (by decide)⟩

/-- Claim C9: fence toggling is prefix-based — any line whose end-trimmed
form merely starts with "```", including a language-tagged fence such as
"```bash", toggles the code-fence state and is rendered dimmed as a fence
line. -/
theorem fence_prefix_toggle :
    (∀ in_code in_glitch l rest, fenceMarker.isPrefixOf (rtrimChars l) →
      classifyGo in_code in_glitch (l :: rest) =
        [(String.mk (rtrimChars l), Sty.dim)] :: classifyGo (!in_code) in_glitch rest) ∧
    (classifyLines "```bash\nx\n```" =
      [[("```bash", Sty.dim)], [("x", Sty.code)], [("```", Sty.dim)]]) := by
  constructor
  · intro in_code in_glitch l rest h
    exact classifyGo_fence in_code in_glitch l rest h
  · decide

/-- Witness for C9: the language-tagged fence "```bash" toggles the state
and renders dimmed. -/
theorem fence_prefix_toggle_witness :
    fenceMarker.isPrefixOf (rtrimChars "```bash".data) = true ∧
      classifyGo false false ("```bash".data :: []) =
        [(String.mk (rtrimChars "```bash".data), Sty.dim)] :: classifyGo true false [] :=
  ⟨by decide, fence_prefix_toggle.1 false false "```bash".data [] (by decide)⟩

/-- Claim C10: the copy-fix key is not side-effect-free on the displayed
state — after every copy attempt (the attempt always happens; its result
decides the message) a bracketed status line, "[Copied fix to clipboard]"
on success or "[Copy failed: ...]" on failure, is appended to the
error-panel text, while the ResponseBuffer, the streaming flag and the
loop's continue/quit outcome are unchanged. -/
theorem copy_key_feedback (clip : String → Except String Unit) (app : AppLocal) :
    (handleKey clip app Key.y).1.duck_response = app.duck_response ∧
    (handleKey clip app Key.y).1.is_streaming = app.is_streaming ∧
    (handleKey clip app Key.y).1.has_git_context = app.has_git_context ∧
    (handleKey clip app Key.y).2 = false ∧
    ((clip (computeToCopy app.duck_response) = Except.ok () ∧
        (handleKey clip app Key.y).1.error_log =
          app.error_log ++ "\n\n[Copied fix to clipboard]") ∨
      (∃ e, clip (computeToCopy app.duck_response) = Except.error e ∧
        (handleKey clip app Key.y).1.error_log =
          app.error_log ++ "\n\n[Copy failed: " ++ e ++ "]")) := by
  have hk : handleKey clip app Key.y = (handleCopyKey clip app, false) := rfl
  rw [hk]
  unfold handleCopyKey
  cases hc : clip (computeToCopy app.duck_response) with
  | ok u =>
      cases u
      simp [hc]
  | error e =>
      simp [hc]

end Quack
